import Mathlib

/-!
Shallow embedding of the modpack-aggregation core of the repository
(`src/main.rs` and `build.rs`; the two files hold near-identical logic, and
they are modelled jointly, with both variants given where they differ).

The embedding covers: the shared game-version comparator `sort_game_versions`,
the registry-A (modrinth) normalizer `get_modrinth_mods`, the registry-B
(curseforge) normalizer `get_curseforge_mods` (both the `main.rs` and the
`build.rs` variant, which differ in how a missing `FORGE_API_KEY` is handled),
the manifest scanner of `read_modpack`, and the final aggregation sort.

I/O collaborators (HTTP fetch, file reads) are abstracted as function
parameters; machine integers are `Nat`/`Int` with explicit bounds where the
source's `u32`/`i64` semantics matter; fallible code returns `Option`/`Except`.
-/

namespace Modpack

/-- The unified mod record: `struct ModpackInfo` in `src/main.rs` / `build.rs`. -/
structure ModpackInfo where
  name : String
  side : String
  url : String
  game_versions : List String
  loaders : List String
deriving DecidableEq, Repr

/-! ### The shared version comparator (`sort_game_versions`) -/

/-- Rust `str::split('.')` on the underlying character list: splits at every
`'.'`, keeping empty segments, and yields `[cs]` when no separator occurs. -/
def splitDot : List Char → List (List Char)
  | [] => [[]]
  | c :: cs =>
    if c = '.' then [] :: splitDot cs
    else
      match splitDot cs with
      | [] => [[c]]
      | h :: t => (c :: h) :: t

/-- Inverse of `splitDot`: interleave the segments with `'.'`. -/
def joinDot : List (List Char) → List Char
  | [] => []
  | [x] => x
  | x :: xs => x ++ '.' :: joinDot xs

/-- Rust `str::parse::<u32>()`: an optional leading `'+'`, then one or more
ASCII digits, with the value below `2^32` (overflow is an error, not a wrap). -/
def parseU32 (cs : List Char) : Option Nat :=
  let ds := match cs with
    | '+' :: rest => rest
    | _ => cs
  if ds = [] then none
  else if ds.all Char.isDigit then
    let v := ds.foldl (fun a c => a * 10 + (c.toNat - 48)) 0
    if v < 4294967296 then some v else none
  else none

/-- `a.split('.').nth(1).unwrap().parse::<u32>().unwrap()` from the comparator:
the minor component; `none` models the `unwrap` panic. -/
def versionMinor (s : String) : Option Nat :=
  (splitDot s.data)[1]? >>= parseU32

/-- `a.split('.').nth(2).unwrap_or("0").parse::<u32>().unwrap()` from the
comparator: the patch component, the segment defaulting to `"0"` when absent. -/
def versionPatch (s : String) : Option Nat :=
  parseU32 (((splitDot s.data)[2]?).getD ['0'])

/-- The comparator closure passed to `sort_by` in `sort_game_versions`
(identical in `src/main.rs:20` and `build.rs:19`): compare minor versions
descending and, when equal, patch versions descending. `none` models the
`unwrap` panic on strings whose components fail to parse; the patch components
are only read (as in the source) when the minor components are equal. -/
def cmpGameVersions (a b : String) : Option Ordering := do
  let minorA ← versionMinor a
  let minorB ← versionMinor b
  let minor := compare minorB minorA
  if minor = Ordering.eq then
    let patchA ← versionPatch a
    let patchB ← versionPatch b
    pure (compare patchB patchA)
  else
    pure minor

/-- The (minor, patch) pair a version string contributes to the comparison. -/
def versionKey (s : String) : Option (Nat × Nat) := do
  let m ← versionMinor s
  let p ← versionPatch s
  pure (m, p)

/-- Descending lexicographic comparison of two (minor, patch) keys, the
order `sort_game_versions` realizes. -/
def keyCompare (ka kb : Nat × Nat) : Ordering :=
  (compare kb.1 ka.1).then (compare kb.2 ka.2)

/-- Total extension of the comparator used in sorting contexts: on strings
where the source would panic it returns `eq` (every claim about sorting is
stated on inputs where the comparator is defined). -/
def cmpGameVersionsD (a b : String) : Ordering :=
  (cmpGameVersions a b).getD .eq

/-- `sort_game_versions`: Rust's stable `slice::sort_by` with the version
comparator, modelled as a stable insertion sort. -/
def sort_game_versions (l : List String) : List String :=
  l.insertionSort (fun a b => cmpGameVersionsD a b ≠ .gt)

/-- Lexicographic three-way comparison of character lists by code point
(Rust compares strings byte-wise in UTF-8, which coincides with code-point
order). -/
def charListCmp : List Char → List Char → Ordering
  | [], [] => .eq
  | [], _ :: _ => .lt
  | _ :: _, [] => .gt
  | a :: as, b :: bs =>
    if a.toNat < b.toNat then .lt
    else if b.toNat < a.toNat then .gt
    else charListCmp as bs

/-- Rust `String::cmp`: lexicographic three-way comparison. -/
def strCmp (a b : String) : Ordering :=
  charListCmp a.data b.data

/-- Strict lexicographic order on strings. -/
def strLt (a b : String) : Prop :=
  strCmp a b = .lt

/-- Lexicographic "at most" on strings. -/
def strLe (a b : String) : Prop :=
  strCmp a b ≠ .gt

instance (a b : String) : Decidable (strLt a b) :=
  inferInstanceAs (Decidable (strCmp a b = .lt))

instance (a b : String) : Decidable (strLe a b) :=
  inferInstanceAs (Decidable ¬(strCmp a b = .gt))

/-- Rust `Vec::<String>::sort()`: ascending lexicographic sort. -/
def sortStrings (l : List String) : List String :=
  l.insertionSort strLe

/-! ### Registry-A (modrinth) normalizer, `get_modrinth_mods` -/

/-- The fields of one item of the registry-A response that the source reads. -/
structure ModrinthItem where
  title : String
  slug : String
  /-- `item.get("client_side").unwrap().as_str()`: `none` when not a string. -/
  client_side : Option String
  server_side : Option String
  loaders : List String
  game_versions : List String
deriving DecidableEq, Repr

/-- The side table of `get_modrinth_mods`: a match on the pair
(client-support, server-support). -/
def derivedSide (client_side server_side : Option String) : String :=
  match client_side, server_side with
  | some "required", some "unsupported" => "client"
  | some "optional", some "unsupported" => "client"
  | some "unsupported", some "required" => "server"
  | some "unsupported", some "optional" => "server"
  | _, _ => "both"

/-- The regex `^1\.[0-9]+(\.[0-9]+)?$` of `get_modrinth_mods`, as a predicate:
a literal `1`, a dot, one or more ASCII digits, optionally a dot and one or
more ASCII digits. -/
def isGameVersionPattern (s : String) : Bool :=
  match splitDot s.data with
  | [maj, minr] => maj == ['1'] && !minr.isEmpty && minr.all Char.isDigit
  | [maj, minr, pat] =>
    maj == ['1'] && !minr.isEmpty && minr.all Char.isDigit
      && !pat.isEmpty && pat.all Char.isDigit
  | _ => false

/-- Per-item normalization of `get_modrinth_mods`. -/
def modrinthRecord (item : ModrinthItem) : ModpackInfo :=
  { name := item.title
    side := derivedSide item.client_side item.server_side
    url := "https://modrinth.com/mod/" ++ item.slug
    game_versions := sort_game_versions (item.game_versions.filter isGameVersionPattern)
    loaders := sortStrings item.loaders }

/-- `get_modrinth_mods`, with the HTTP collaborator abstracted as `fetch`;
the returned `Nat` counts the network requests issued. -/
def get_modrinth_mods (mod_ids : List String)
    (fetch : List String → Except String (List ModrinthItem)) :
    Except String (List ModpackInfo × Nat) :=
  if mod_ids.isEmpty then .ok ([], 0)
  else
    match fetch mod_ids with
    | .error e => .error e
    | .ok data => .ok (data.map modrinthRecord, 1)

/-! ### Registry-B (curseforge) normalizer, `get_curseforge_mods` -/

/-- One entry of an item's `latestFilesIndexes` array. -/
structure FileIndex where
  gameVersion : String
  /-- Outer `none`: no `modLoader` field; inner `none`: the field is present
  but `as_i64` fails. -/
  modLoader : Option (Option Int)
deriving DecidableEq, Repr

/-- The fields of one item of the registry-B response that the source reads. -/
structure CurseforgeItem where
  name : String
  websiteUrl : String
  latestFilesIndexes : List FileIndex
deriving DecidableEq, Repr

/-- The fixed loader-code table of `get_curseforge_mods` (a match on the
`as_i64` result of a present `modLoader` field). -/
def modLoaderName (code : Option Int) : String :=
  match code with
  | some 0 => "any"
  | some 1 => "forge"
  | some 2 => "cauldron"
  | some 3 => "liteloader"
  | some 4 => "fabric"
  | some 5 => "quilt"
  | some 6 => "neoforge"
  | _ => "unknown"

/-- Accumulation of the mapped loader names of the present `modLoader` codes
into a `HashSet`, rendered ascending: modelled as dedup + ascending sort (the
set is fully determined, so the hash-iteration order is irrelevant after
sorting, the set's elements being pairwise distinct). -/
def loadersOfCodes (codes : List (Option Int)) : List String :=
  sortStrings ((codes.map modLoaderName).dedup)

/-- Accumulation of the distinct `gameVersion` strings into a `HashSet`,
sorted with the version comparator. -/
def curseforgeGameVersions (indexes : List FileIndex) : List String :=
  sort_game_versions ((indexes.map FileIndex.gameVersion).dedup)

/-- Per-item normalization of `get_curseforge_mods`. -/
def curseforgeRecord (item : CurseforgeItem) : ModpackInfo :=
  { name := item.name
    side := "unknown"
    url := item.websiteUrl
    game_versions := curseforgeGameVersions item.latestFilesIndexes
    loaders := loadersOfCodes (item.latestFilesIndexes.filterMap FileIndex.modLoader) }

/-- `get_curseforge_mods` as in `src/main.rs:90`: the credential lookup is
`var("FORGE_API_KEY")?`, so an absent credential propagates an error before
the empty-batch check. `forge_api_key = none` models the absent variable,
`fetch` the HTTP collaborator, and the `Nat` counts requests issued. -/
def get_curseforge_mods_main (forge_api_key : Option String) (mod_ids : List Int)
    (fetch : List Int → Except String (List CurseforgeItem)) :
    Except String (List ModpackInfo × Nat) :=
  match forge_api_key with
  | none => .error "environment variable not found"
  | some _ =>
    if mod_ids.isEmpty then .ok ([], 0)
    else
      match fetch mod_ids with
      | .error e => .error e
      | .ok data => .ok (data.map curseforgeRecord, 1)

/-- `get_curseforge_mods` as in `build.rs:89`: the credential lookup is
`var("FORGE_API_KEY").unwrap_or_default()`, and an empty batch or an empty
credential takes the `else` branch that prints "Skipping curseforge mods".
The third component collects the diagnostics printed to stderr. -/
def get_curseforge_mods_build (forge_api_key : Option String) (mod_ids : List Int)
    (fetch : List Int → Except String (List CurseforgeItem)) :
    Except String (List ModpackInfo × Nat × List String) :=
  let key := forge_api_key.getD ""
  if ¬ mod_ids.isEmpty ∧ key ≠ "" then
    match fetch mod_ids with
    | .error e => .error e
    | .ok data => .ok (data.map curseforgeRecord, 1, [])
  else
    .ok ([], 0, ["Skipping curseforge mods"])

/-! ### Manifest scanner (`read_modpack`) -/

/-- The fragment of the TOML value interface the source uses
(`toml::Value` with `get`, `as_str`, `as_integer`). -/
inductive TomlVal where
  | str : String → TomlVal
  | int : Int → TomlVal
  | boolean : Bool → TomlVal
  | table : List (String × TomlVal) → TomlVal

/-- `toml::Value::get(key)`: a table lookup, `none` on non-tables. -/
def TomlVal.get : TomlVal → String → Option TomlVal
  | .table kvs, k => kvs.lookup k
  | _, _ => none

/-- `toml::Value::as_str`. -/
def TomlVal.as_str : TomlVal → Option String
  | .str s => some s
  | _ => none

/-- `toml::Value::as_integer`. -/
def TomlVal.as_integer : TomlVal → Option Int
  | .int i => some i
  | _ => none

/-- The effect of one metadata file on the scanner's three collections. -/
inductive ScanAction where
  /-- append `project-id` to `cf_mods : Vec<i64>` -/
  | pushCurseforge : Int → ScanAction
  /-- append `mod-id` to `mr_mods : Vec<String>` -/
  | pushModrinth : String → ScanAction
  /-- `eprintln!` diagnostic, no contribution -/
  | skip : String → ScanAction
  /-- append a self-described record to `mods` -/
  | selfDescribed : ModpackInfo → ScanAction
deriving DecidableEq

/-- Classification of one parsed metadata file in the loop of `read_modpack`
(`src/main.rs:199`, `build.rs:194`): an `update` section routes on the pair
(`curseforge` sub-section, `modrinth` sub-section); no `update` section means
the file is self-described. Errors are the `context`/`unwrap` failures of the
source. -/
def classifyModFile (mod_file : TomlVal) : Except String ScanAction :=
  match mod_file.get "update" with
  | some update_section =>
    match update_section.get "curseforge", update_section.get "modrinth" with
    | some curseforge_section, none =>
      match curseforge_section.get "project-id" with
      | none => .error "couldn't find project id"
      | some v =>
        match v.as_integer with
        | none => .error "Can't parse project id as int"
        | some mod_id => .ok (.pushCurseforge mod_id)
    | none, some modrinth_section =>
      match modrinth_section.get "mod-id" with
      | none => .error "couldn't find mod id"
      | some v =>
        match v.as_str with
        | none => .error "Can't parse mod id as str"
        | some mod_id => .ok (.pushModrinth mod_id)
    | _, _ => .ok (.skip "Unexpected update section without curseforge or modrinth")
  | none =>
    match mod_file.get "name" with
    | none => .error "can't find name"
    | some nv =>
      match nv.as_str with
      | none => .error "can't parse name to str"
      | some name =>
        match mod_file.get "side" with
        | none => .error "can't find side"
        | some sv =>
          match sv.as_str with
          | none => .error "can't parse side to str"
          | some side =>
            match mod_file.get "download" with
            | none => .error "can't find download"
            | some dv =>
              match dv.get "url" with
              | none => .error "can't find url"
              | some uv =>
                match uv.as_str with
                | none => .error "cant parse url as str"
                | some url =>
                  .ok (.selfDescribed
                    { name := name, side := side, url := url
                      game_versions := [], loaders := [] })

/-- The scanner's three collections (`mods`, `mr_mods : Vec<String>`,
`cf_mods : Vec<i64>`), plus the stderr diagnostics. -/
structure ScanState where
  mods : List ModpackInfo
  mr_mods : List String
  cf_mods : List Int
  diags : List String
deriving DecidableEq

/-- Applying one classified file to the scanner state. -/
def applyScan (st : ScanState) : ScanAction → ScanState
  | .pushCurseforge i => { st with cf_mods := st.cf_mods ++ [i] }
  | .pushModrinth s => { st with mr_mods := st.mr_mods ++ [s] }
  | .skip msg => { st with diags := st.diags ++ [msg] }
  | .selfDescribed r => { st with mods := st.mods ++ [r] }

/-- The `for file in mod_files` loop of `read_modpack` over the parsed
metadata files: fail-fast on classification errors, otherwise fold. -/
def scanModFiles : List TomlVal → ScanState → Except String ScanState
  | [], st => .ok st
  | f :: fs, st =>
    match classifyModFile f with
    | .error e => .error e
    | .ok a => scanModFiles fs (applyScan st a)

/-! ### Aggregator (final sort of `read_modpack`) -/

/-- The sort key of `mods.sort_by(|a, b| a.name.cmp(&b.name).then(a.side.cmp(&b.side)))`. -/
def aggCmp (a b : ModpackInfo) : Ordering :=
  (strCmp a.name b.name).then (strCmp a.side b.side)

/-- The "at most" relation induced by the aggregation comparator. -/
def aggLe (a b : ModpackInfo) : Prop :=
  aggCmp a b ≠ .gt

instance (a b : ModpackInfo) : Decidable (aggLe a b) :=
  inferInstanceAs (Decidable ¬(aggCmp a b = .gt))

/-- The aggregation of `read_modpack`: append the self-described, registry-A
and registry-B records in that order, then stably sort by (name, side). -/
def aggregate (selfDescribed modrinth curseforge : List ModpackInfo) : List ModpackInfo :=
  (selfDescribed ++ modrinth ++ curseforge).insertionSort aggLe

/-! ### Order-theoretic facts about the lexicographic string comparison -/

theorem charListCmp_swap : ∀ as bs, (charListCmp as bs).swap = charListCmp bs as
  | [], [] => rfl
  | [], _ :: _ => rfl
  | _ :: _, [] => rfl
  | a :: as, b :: bs => by
    simp only [charListCmp]
    rcases Nat.lt_trichotomy a.toNat b.toNat with h | h | h
    · simp [h, Nat.lt_asymm h, Ordering.swap]
    · simp [h, charListCmp_swap as bs]
    · simp [h, Nat.lt_asymm h, Ordering.swap]

theorem charListCmp_eq_iff : ∀ as bs, charListCmp as bs = .eq ↔ as = bs
  | [], [] => by simp [charListCmp]
  | [], _ :: _ => by simp [charListCmp]
  | _ :: _, [] => by simp [charListCmp]
  | a :: as, b :: bs => by
    simp only [charListCmp]
    rcases Nat.lt_trichotomy a.toNat b.toNat with h | h | h
    · simp only [if_pos h]
      constructor
      · intro hc; cases hc
      · rintro ⟨rfl, rfl⟩; omega
    · have hab : a = b := Char.eq_of_val_eq (by
        apply UInt32.eq_of_val_eq
        apply Fin.ext
        exact h)
      simp [h, charListCmp_eq_iff as bs, hab]
    · simp only [if_neg (by omega : ¬ a.toNat < b.toNat), if_pos h]
      constructor
      · intro hc; cases hc
      · rintro ⟨rfl, rfl⟩; omega

theorem charListCmp_le_trans :
    ∀ as bs cs, charListCmp as bs ≠ .gt → charListCmp bs cs ≠ .gt →
      charListCmp as cs ≠ .gt
  | [], bs, cs => by
    intro _ _
    cases cs <;> simp [charListCmp]
  | _ :: _, [], _ => by
    intro h1 _
    exact absurd rfl h1
  | _ :: _, _ :: _, [] => by
    intro _ h2
    exact absurd rfl h2
  | a :: as, b :: bs, c :: cs => by
    intro h1 h2
    simp only [charListCmp] at h1 h2 ⊢
    split_ifs at h1 h2 ⊢ <;>
      first
        | decide
        | exact absurd rfl h1
        | exact absurd rfl h2
        | omega
        | exact charListCmp_le_trans as bs cs h1 h2

theorem strCmp_eq_iff {a b : String} : strCmp a b = .eq ↔ a = b := by
  rw [strCmp, charListCmp_eq_iff]
  exact ⟨fun h => String.ext h, fun h => h ▸ rfl⟩

theorem strCmp_self (a : String) : strCmp a a = .eq :=
  strCmp_eq_iff.mpr rfl

theorem strCmp_swap (a b : String) : (strCmp a b).swap = strCmp b a :=
  charListCmp_swap a.data b.data

theorem strLe_total (a b : String) : strLe a b ∨ strLe b a := by
  unfold strLe
  rcases h : strCmp a b with _ | _ | _ <;> [left; left; right] <;>
    simp_all [← strCmp_swap a b, Ordering.swap]

theorem strLe_trans {a b c : String} (h1 : strLe a b) (h2 : strLe b c) : strLe a c :=
  charListCmp_le_trans a.data b.data c.data h1 h2

theorem strLe_antisymm {a b : String} (h1 : strLe a b) (h2 : strLe b a) : a = b := by
  rw [← strCmp_eq_iff]
  unfold strLe at h1 h2
  rw [← strCmp_swap a b] at h2
  rcases h : strCmp a b <;> simp_all [Ordering.swap]

theorem strLe_iff {a b : String} : strLe a b ↔ strLt a b ∨ a = b := by
  unfold strLe strLt
  rw [← strCmp_eq_iff]
  rcases strCmp a b <;> simp

theorem strLt_of_lt_of_le {a b c : String} (h1 : strLt a b) (h2 : strLe b c) : strLt a c := by
  have hle : strLe a c := strLe_trans (strLe_iff.mpr (Or.inl h1)) h2
  rcases strLe_iff.mp hle with h | rfl
  · exact h
  · exact absurd (show strCmp b a = .gt by rw [← strCmp_swap a b, h1]; rfl) h2

theorem strLt_of_le_of_lt {a b c : String} (h1 : strLe a b) (h2 : strLt b c) : strLt a c := by
  have hle : strLe a c := strLe_trans h1 (strLe_iff.mpr (Or.inl h2))
  rcases strLe_iff.mp hle with h | rfl
  · exact h
  · exact absurd (show strCmp a b = .gt by rw [← strCmp_swap b a, h2]; rfl) h1

instance : IsTrans String strLe := ⟨fun _ _ _ => strLe_trans⟩
instance : IsTotal String strLe := ⟨strLe_total⟩

/-! ### The aggregation order -/

/-- The aggregation order is the lexicographic order on the (name, side) pair. -/
theorem aggLe_iff {a b : ModpackInfo} :
    aggLe a b ↔ strLt a.name b.name ∨ (a.name = b.name ∧ strLe a.side b.side) := by
  unfold aggLe aggCmp strLt strLe
  rw [← strCmp_eq_iff]
  rcases hn : strCmp a.name b.name <;>
    rcases hs : strCmp a.side b.side <;>
    simp [Ordering.then]

theorem aggLe_total (a b : ModpackInfo) : aggLe a b ∨ aggLe b a := by
  rw [aggLe_iff, aggLe_iff]
  rcases strLe_total a.name b.name with h | h
  · rcases strLe_iff.mp h with h' | h'
    · exact Or.inl (Or.inl h')
    · rcases strLe_total a.side b.side with hs | hs
      · exact Or.inl (Or.inr ⟨h', hs⟩)
      · exact Or.inr (Or.inr ⟨h'.symm, hs⟩)
  · rcases strLe_iff.mp h with h' | h'
    · exact Or.inr (Or.inl h')
    · rcases strLe_total a.side b.side with hs | hs
      · exact Or.inl (Or.inr ⟨h'.symm, hs⟩)
      · exact Or.inr (Or.inr ⟨h', hs⟩)

theorem aggLe_trans {a b c : ModpackInfo} (h1 : aggLe a b) (h2 : aggLe b c) : aggLe a c := by
  rw [aggLe_iff] at h1 h2 ⊢
  rcases h1 with h1 | ⟨h1n, h1s⟩ <;> rcases h2 with h2 | ⟨h2n, h2s⟩
  · exact Or.inl (strLt_of_lt_of_le h1 (strLe_iff.mpr (Or.inl h2)))
  · exact Or.inl (h2n ▸ h1)
  · exact Or.inl (h1n ▸ h2)
  · exact Or.inr ⟨h1n.trans h2n, strLe_trans h1s h2s⟩

instance : IsTrans ModpackInfo aggLe := ⟨fun _ _ _ => aggLe_trans⟩
instance : IsTotal ModpackInfo aggLe := ⟨aggLe_total⟩

/-- Two records with equal name and side are equivalent under the aggregation order. -/
theorem aggLe_of_key_eq {a b : ModpackInfo} (hn : a.name = b.name) (hs : a.side = b.side) :
    aggLe a b :=
  aggLe_iff.mpr (Or.inr ⟨hn, by rw [strLe, hs, strCmp_self]; simp⟩)

/-! ### The version comparator and its key -/

theorem natCompare_swap (a b : Nat) : (compare a b).swap = compare b a := by
  rcases Nat.lt_trichotomy a b with h | h | h
  · rw [Nat.compare_eq_lt.mpr h, Nat.compare_eq_gt.mpr h]; rfl
  · rw [h, Nat.compare_eq_eq.mpr rfl]; rfl
  · rw [Nat.compare_eq_gt.mpr h, Nat.compare_eq_lt.mpr h]; rfl

theorem versionKey_eq_some {s : String} {k : Nat × Nat} :
    versionKey s = some k ↔ versionMinor s = some k.1 ∧ versionPatch s = some k.2 := by
  obtain ⟨m, p⟩ := k
  unfold versionKey
  cases hm : versionMinor s <;> cases hp : versionPatch s <;> simp [Option.bind, pure]

theorem cmpGameVersions_eq_keyCompare {a b : String} {ka kb : Nat × Nat}
    (ha : versionKey a = some ka) (hb : versionKey b = some kb) :
    cmpGameVersions a b = some (keyCompare ka kb) := by
  obtain ⟨hma, hpa⟩ := versionKey_eq_some.mp ha
  obtain ⟨hmb, hpb⟩ := versionKey_eq_some.mp hb
  unfold cmpGameVersions keyCompare
  rw [hma, hmb]
  rcases h : compare kb.1 ka.1 <;>
    simp [Option.bind, h, hpa, hpb, Ordering.then, pure]

theorem keyCompare_eq_gt {ka kb : Nat × Nat} :
    keyCompare ka kb = .gt ↔ ka.1 < kb.1 ∨ (ka.1 = kb.1 ∧ ka.2 < kb.2) := by
  rw [keyCompare, Ordering.then_eq_gt, Nat.compare_eq_gt, Nat.compare_eq_gt,
    Nat.compare_eq_eq]
  constructor
  · rintro (h | ⟨h1, h2⟩)
    · exact Or.inl h
    · exact Or.inr ⟨h1.symm, h2⟩
  · rintro (h | ⟨h1, h2⟩)
    · exact Or.inl h
    · exact Or.inr ⟨h1.symm, h2⟩

theorem keyCompare_eq_eq {ka kb : Nat × Nat} : keyCompare ka kb = .eq ↔ ka = kb := by
  rw [keyCompare, Ordering.then_eq_eq, Nat.compare_eq_eq, Nat.compare_eq_eq,
    Prod.ext_iff]
  constructor
  · rintro ⟨h1, h2⟩; exact ⟨h1.symm, h2.symm⟩
  · rintro ⟨h1, h2⟩; exact ⟨h1.symm, h2.symm⟩

theorem keyCompare_swap (ka kb : Nat × Nat) : (keyCompare ka kb).swap = keyCompare kb ka := by
  rw [keyCompare, keyCompare, Ordering.swap_then, natCompare_swap, natCompare_swap]

/-! ### Stability of a stable sort, phrased through filters -/

theorem filter_orderedInsert {α : Type} {r : α → α → Prop} [DecidableRel r]
    (p : α → Bool) (a : α) (l : List α) (hr : ∀ x ∈ l, p x → p a → r a x) :
    (l.orderedInsert r a).filter p = if p a then a :: l.filter p else l.filter p := by
  induction l with
  | nil => cases hpa : p a <;> simp [List.orderedInsert, List.filter, hpa]
  | cons b l ih =>
    by_cases hab : r a b
    · simp only [List.orderedInsert, if_pos hab, List.filter_cons]
    · simp only [List.orderedInsert, if_neg hab, List.filter_cons]
      rw [ih fun x hx => hr x (List.mem_cons_of_mem b hx)]
      by_cases hpa : p a
      · by_cases hpb : p b
        · exact absurd (hr b (List.mem_cons_self b l) hpb hpa) hab
        · simp [hpa, hpb]
      · simp [hpa]

theorem filter_insertionSort {α : Type} {r : α → α → Prop} [DecidableRel r]
    (p : α → Bool) (l : List α) (hr : ∀ x ∈ l, ∀ y ∈ l, p x → p y → r x y) :
    (l.insertionSort r).filter p = l.filter p := by
  induction l with
  | nil => rfl
  | cons a l ih =>
    rw [List.insertionSort,
      filter_orderedInsert p a _ (fun x hx px pa =>
        hr a (List.mem_cons_self a l) x
          (List.mem_cons_of_mem a ((List.mem_insertionSort r).mp hx)) pa px),
      ih fun x hx y hy => hr x (List.mem_cons_of_mem a hx) y (List.mem_cons_of_mem a hy),
      List.filter_cons]

/-! ### `splitDot` and the version-pattern regex -/

theorem splitDot_ne_nil : ∀ cs, splitDot cs ≠ []
  | [] => by simp [splitDot]
  | c :: cs => by
    simp only [splitDot]
    split_ifs
    · simp
    · rcases h : splitDot cs with _ | ⟨hd, tl⟩ <;> simp

theorem joinDot_splitDot : ∀ cs, joinDot (splitDot cs) = cs
  | [] => rfl
  | c :: cs => by
    simp only [splitDot]
    split_ifs with hc
    · rcases h : splitDot cs with _ | ⟨hd, tl⟩
      · exact absurd h (splitDot_ne_nil cs)
      · have := joinDot_splitDot cs
        rw [h] at this
        subst hc
        simp [joinDot, this]
    · rcases h : splitDot cs with _ | ⟨hd, tl⟩
      · exact absurd h (splitDot_ne_nil cs)
      · have := joinDot_splitDot cs
        rw [h] at this
        cases tl with
        | nil => simpa [joinDot] using congrArg (c :: ·) this
        | cons t ts => simpa [joinDot] using congrArg (c :: ·) this

theorem splitDot_no_dot : ∀ cs : List Char, (∀ c ∈ cs, c ≠ '.') → splitDot cs = [cs]
  | [], _ => rfl
  | c :: cs, h => by
    have hc : c ≠ '.' := h c (List.mem_cons_self c cs)
    simp only [splitDot, if_neg hc,
      splitDot_no_dot cs fun x hx => h x (List.mem_cons_of_mem c hx)]

theorem splitDot_append_dot : ∀ (m p : List Char), (∀ c ∈ m, c ≠ '.') →
    splitDot (m ++ '.' :: p) = m :: splitDot p
  | [], p, _ => by simp [splitDot]
  | c :: m, p, h => by
    have hc : c ≠ '.' := h c (List.mem_cons_self c m)
    have ih := splitDot_append_dot m p fun x hx => h x (List.mem_cons_of_mem c hx)
    rw [List.cons_append]
    simp only [splitDot, if_neg hc]
    rw [ih]

theorem ne_dot_of_isDigit {c : Char} (h : c.isDigit) : c ≠ '.' := by
  rintro rfl
  exact absurd h (by decide)

/-- The regex `^1\.[0-9]+(\.[0-9]+)?$` holds exactly on strings made of the
literal `1`, a dot, a nonempty digit group, and optionally a dot and a second
nonempty digit group. -/
theorem isGameVersionPattern_iff {s : String} :
    isGameVersionPattern s = true ↔
      ((∃ m, m ≠ [] ∧ (∀ c ∈ m, c.isDigit) ∧ s.data = '1' :: '.' :: m) ∨
       (∃ m p, m ≠ [] ∧ (∀ c ∈ m, c.isDigit) ∧ p ≠ [] ∧ (∀ c ∈ p, c.isDigit) ∧
         s.data = '1' :: '.' :: (m ++ '.' :: p))) := by
  constructor
  · intro h
    unfold isGameVersionPattern at h
    have hjoin := joinDot_splitDot s.data
    rcases hsd : splitDot s.data with _ | ⟨maj, segs⟩
    · rw [hsd] at h; cases h
    · rcases segs with _ | ⟨minr, segs2⟩
      · rw [hsd] at h; cases h
      · rcases segs2 with _ | ⟨pat, segs3⟩
        · rw [hsd] at h
          simp only [Bool.and_eq_true, beq_iff_eq, Bool.not_eq_true',
            List.isEmpty_eq_false, List.all_eq_true, decide_eq_true_eq] at h
          obtain ⟨⟨hmaj, hne⟩, hdig⟩ := h
          refine Or.inl ⟨minr, hne, hdig, ?_⟩
          rw [hsd, hmaj] at hjoin
          simpa [joinDot] using hjoin.symm
        · rcases segs3 with _ | ⟨x, xs⟩
          · rw [hsd] at h
            simp only [Bool.and_eq_true, beq_iff_eq, Bool.not_eq_true',
              List.isEmpty_eq_false, List.all_eq_true, decide_eq_true_eq] at h
            obtain ⟨⟨⟨⟨hmaj, hmne⟩, hmdig⟩, hpne⟩, hpdig⟩ := h
            refine Or.inr ⟨minr, pat, hmne, hmdig, hpne, hpdig, ?_⟩
            rw [hsd, hmaj] at hjoin
            simpa [joinDot] using hjoin.symm
          · rw [hsd] at h; cases h
  · rintro (⟨m, hne, hdig, hs⟩ | ⟨m, p, hmne, hmdig, hpne, hpdig, hs⟩)
    · unfold isGameVersionPattern
      have : splitDot s.data = [['1'], m] := by
        rw [hs]
        have : ('1' :: '.' :: m : List Char) = ['1'] ++ '.' :: m := rfl
        rw [this, splitDot_append_dot ['1'] m (by simp),
          splitDot_no_dot m fun c hc => ne_dot_of_isDigit (hdig c hc)]
      rw [this]
      simp only [Bool.and_eq_true, beq_iff_eq, Bool.not_eq_true',
        List.isEmpty_eq_false, List.all_eq_true, decide_eq_true_eq]
      exact ⟨⟨trivial, hne⟩, hdig⟩
    · unfold isGameVersionPattern
      have : splitDot s.data = [['1'], m, p] := by
        rw [hs]
        have : ('1' :: '.' :: (m ++ '.' :: p) : List Char) = ['1'] ++ '.' :: (m ++ '.' :: p) :=
          rfl
        rw [this, splitDot_append_dot ['1'] _ (by simp),
          splitDot_append_dot m p fun c hc => ne_dot_of_isDigit (hmdig c hc),
          splitDot_no_dot p fun c hc => ne_dot_of_isDigit (hpdig c hc)]
      rw [this]
      simp only [Bool.and_eq_true, beq_iff_eq, Bool.not_eq_true',
        List.isEmpty_eq_false, List.all_eq_true, decide_eq_true_eq]
      exact ⟨⟨⟨⟨trivial, hmne⟩, hmdig⟩, hpne⟩, hpdig⟩

/-- Indexing at 1 only depends on the tail of a list. -/
theorem getElem?_one_of_tail_eq {l l' : List (List Char)} (hl : l.tail = l'.tail) :
    l[1]? = l'[1]? := by
  cases l <;> cases l' <;> simp_all

/-- Indexing at 2 only depends on the tail of a list. -/
theorem getElem?_two_of_tail_eq {l l' : List (List Char)} (hl : l.tail = l'.tail) :
    l[2]? = l'[2]? := by
  cases l <;> cases l' <;> simp_all

/-! ## The claims -/

/-- C1: for version strings of the form `major.minor[.patch]` whose minor and
patch components parse (the patch defaulting to `0` when the third segment is
absent), the comparator of `sort_game_versions` returns exactly the descending
lexicographic comparison of the (minor, patch) keys; it returns `eq` precisely
on equal keys, is antisymmetric under swapping its arguments, and its
non-`gt` ("at most") relation is total and transitive — a total preorder whose
induced equality is key equality. -/
theorem sort_game_versions_comparator_total_order
    (a b c : String) (ka kb kc : Nat × Nat)
    (hka : versionKey a = some ka) (hkb : versionKey b = some kb)
    (hkc : versionKey c = some kc) :
    cmpGameVersions a b = some (keyCompare ka kb)
    ∧ ((splitDot a.data)[2]? = none → versionPatch a = some 0)
    ∧ (cmpGameVersions a b = some .eq ↔ ka = kb)
    ∧ cmpGameVersions b a = some ((keyCompare ka kb).swap)
    ∧ (cmpGameVersions a b ≠ some .gt ∨ cmpGameVersions b a ≠ some .gt)
    ∧ (cmpGameVersions a b ≠ some .gt → cmpGameVersions b c ≠ some .gt →
        cmpGameVersions a c ≠ some .gt) := by
  have hab := cmpGameVersions_eq_keyCompare hka hkb
  have hba := cmpGameVersions_eq_keyCompare hkb hka
  have hbc := cmpGameVersions_eq_keyCompare hkb hkc
  have hac := cmpGameVersions_eq_keyCompare hka hkc
  refine ⟨hab, ?_, ?_, ?_, ?_, ?_⟩
  · intro hnone
    unfold versionPatch
    rw [hnone]
    rfl
  · rw [hab]; simp [keyCompare_eq_eq]
  · rw [hba, ← keyCompare_swap]
  · rw [hab, hba]
    simp only [ne_eq, Option.some.injEq]
    rw [keyCompare_eq_gt, keyCompare_eq_gt]
    omega
  · rw [hab, hbc, hac]
    simp only [ne_eq, Option.some.injEq]
    rw [keyCompare_eq_gt, keyCompare_eq_gt, keyCompare_eq_gt]
    omega

/-- Witness for C1 at the concrete versions `"1.20.1"`, `"1.20"`, `"1.19.4"`. -/
theorem sort_game_versions_comparator_total_order_witness :
    cmpGameVersions "1.20.1" "1.20" = some (keyCompare (20, 1) (20, 0)) :=
  (sort_game_versions_comparator_total_order "1.20.1" "1.20" "1.19.4"
    (20, 1) (20, 0) (19, 4) rfl rfl rfl).1

/-- C2: the registry-A (modrinth) side derivation is the stated table over
the (client-support, server-support) pair: `client` on (required-or-optional,
unsupported), `server` on (unsupported, required-or-optional), `both` on every
other combination; and each normalized record's `side` is obtained that way. -/
theorem modrinth_side_table (c s : String) (item : ModrinthItem) :
    derivedSide (some c) (some s) =
      (if (c = "required" ∨ c = "optional") ∧ s = "unsupported" then "client"
       else if c = "unsupported" ∧ (s = "required" ∨ s = "optional") then "server"
       else "both")
    ∧ (modrinthRecord item).side = derivedSide item.client_side item.server_side
    ∧ derivedSide (some "optional") (some "unsupported") = "client"
    ∧ derivedSide (some "unsupported") (some "required") = "server"
    ∧ derivedSide (some "required") (some "required") = "both" := by
  refine ⟨?_, rfl, rfl, rfl, rfl⟩
  unfold derivedSide
  split <;> first | decide | (split_ifs <;> simp_all)

/-- C3: the aggregator's output is the concatenation (self-described, then
registry-A, then registry-B) stably sorted by name ascending then side
ascending (lexicographic string order): the output is sorted, it is a
permutation of the concatenation, records with identical (name, side) keep
their concatenation order (equal filters), and the `Zeta/Alpha` example
orders as stated. -/
theorem aggregate_sorted_and_stable (selfD mrA cfB : List ModpackInfo) :
    (aggregate selfD mrA cfB).Sorted
      (fun x y => strLt x.name y.name ∨ (x.name = y.name ∧ strLe x.side y.side))
    ∧ (aggregate selfD mrA cfB).Perm (selfD ++ mrA ++ cfB)
    ∧ (∀ n s : String,
        (aggregate selfD mrA cfB).filter (fun x => x.name == n && x.side == s)
          = (selfD ++ mrA ++ cfB).filter (fun x => x.name == n && x.side == s))
    ∧ aggregate [⟨"Zeta", "both", "", [], []⟩] [⟨"Alpha", "client", "", [], []⟩]
        [⟨"Alpha", "server", "", [], []⟩]
      = [⟨"Alpha", "client", "", [], []⟩, ⟨"Alpha", "server", "", [], []⟩,
         ⟨"Zeta", "both", "", [], []⟩] := by
  refine ⟨?_, List.perm_insertionSort aggLe _, ?_, by decide⟩
  · exact (List.sorted_insertionSort aggLe (selfD ++ mrA ++ cfB)).imp
      fun h => aggLe_iff.mp h
  · intro n s
    apply filter_insertionSort
    intro x _ y _ hpx hpy
    simp only [Bool.and_eq_true, beq_iff_eq] at hpx hpy
    exact aggLe_of_key_eq (hpx.1.trans hpy.1.symm) (hpx.2.trans hpy.2.symm)

/-- C4: a registry-A record's `game_versions` is the item's declared list
filtered by the `1.x` / `1.x.y` pattern (numeric `x`, `y`) and sorted by the
version comparator; the pattern predicate accepts exactly such strings, and
the `["1.20.1", "1.19", "abc", "2.0"]` example filters and sorts to
`["1.20.1", "1.19"]`. -/
theorem modrinth_game_versions_filter_sort (item : ModrinthItem) :
    (modrinthRecord item).game_versions
      = sort_game_versions (item.game_versions.filter isGameVersionPattern)
    ∧ (∀ s : String, isGameVersionPattern s = true ↔
        ((∃ m, m ≠ [] ∧ (∀ c ∈ m, c.isDigit) ∧ s.data = '1' :: '.' :: m) ∨
         (∃ m p, m ≠ [] ∧ (∀ c ∈ m, c.isDigit) ∧ p ≠ [] ∧ (∀ c ∈ p, c.isDigit) ∧
           s.data = '1' :: '.' :: (m ++ '.' :: p))))
    ∧ (["1.20.1", "1.19", "abc", "2.0"] : List String).filter isGameVersionPattern
        = ["1.20.1", "1.19"]
    ∧ sort_game_versions
        ((["1.20.1", "1.19", "abc", "2.0"] : List String).filter isGameVersionPattern)
      = ["1.20.1", "1.19"] :=
  ⟨rfl, fun _ => isGameVersionPattern_iff, by decide, by decide⟩

/-- C5: a registry-B (curseforge) record's side is always `"unknown"`; the
loader codes present across the file indexes are mapped by the fixed table
(0 any, 1 forge, 2 cauldron, 3 liteloader, 4 fabric, 5 quilt, 6 neoforge,
anything else unknown), collapsed to a set, and rendered as an ascending
sorted duplicate-free sequence; codes `[1, 4, 4, 99]` yield
`["fabric", "forge", "unknown"]`. -/
theorem curseforge_loader_table_and_side (item : CurseforgeItem)
    (codes : List (Option Int)) (z : Int) :
    (curseforgeRecord item).side = "unknown"
    ∧ (curseforgeRecord item).loaders
        = loadersOfCodes (item.latestFilesIndexes.filterMap FileIndex.modLoader)
    ∧ modLoaderName (some z)
        = (if z = 0 then "any" else if z = 1 then "forge" else if z = 2 then "cauldron"
           else if z = 3 then "liteloader" else if z = 4 then "fabric"
           else if z = 5 then "quilt" else if z = 6 then "neoforge" else "unknown")
    ∧ modLoaderName none = "unknown"
    ∧ (loadersOfCodes codes).Sorted strLe
    ∧ (loadersOfCodes codes).Nodup
    ∧ (∀ s : String, s ∈ loadersOfCodes codes ↔ ∃ c ∈ codes, modLoaderName c = s)
    ∧ loadersOfCodes [some 1, some 4, some 4, some 99] = ["fabric", "forge", "unknown"] := by
  refine ⟨rfl, rfl, ?_, rfl, List.sorted_insertionSort strLe _,
    ((List.perm_insertionSort strLe _).nodup_iff).mpr (List.nodup_dedup _), ?_, by decide⟩
  · unfold modLoaderName
    split <;> simp_all
  · intro s
    simp [loadersOfCodes, sortStrings, List.mem_insertionSort, List.mem_dedup, List.mem_map]

/-- C6 counterexample: in the `src/main.rs` variant the credential lookup is
`var("FORGE_API_KEY")?`, so an absent credential is a hard failure of the
normalizer, not a skip: with no credential and a non-empty batch the result is
an error, refuting "the run does not abort ... never a hard failure". -/
theorem curseforge_missing_key_main_aborts :
    (get_curseforge_mods_main none [7] fun _ => .ok []).isOk = false := rfl

/-- C6 amended: in the `build.rs` variant an absent (or empty) credential
skips the registry-B batch with the "Skipping curseforge mods" diagnostic and
an empty contribution, issuing no request, whatever the batch and the fetch
collaborator; the `src/main.rs` variant instead fails with an error when the
credential is absent. -/
theorem curseforge_missing_key_behavior (mod_ids : List Int)
    (fetch : List Int → Except String (List CurseforgeItem)) :
    get_curseforge_mods_build none mod_ids fetch
      = .ok ([], 0, ["Skipping curseforge mods"])
    ∧ get_curseforge_mods_build (some "") mod_ids fetch
      = .ok ([], 0, ["Skipping curseforge mods"])
    ∧ get_curseforge_mods_main none mod_ids fetch
      = .error "environment variable not found" := by
  refine ⟨?_, ?_, rfl⟩ <;> · unfold get_curseforge_mods_build; simp

/-- C7 counterexample: in the `src/main.rs` variant, an empty registry-B batch
does not return an empty record list when the credential is absent — the
credential lookup errors before the emptiness check. -/
theorem empty_batch_missing_key_errors :
    (get_curseforge_mods_main none [] fun _ => .ok []).isOk = false := rfl

/-- C7 amended: an empty identifier batch issues zero network requests in
every normalizer, and returns the empty record list — except that the
`src/main.rs` registry-B variant first requires the credential to be present
and otherwise errors (still without issuing a request: the result does not
depend on the fetch collaborator). -/
theorem empty_batch_no_requests (key : Option String) (k : String)
    (fetchA : List String → Except String (List ModrinthItem))
    (fetchB : List Int → Except String (List CurseforgeItem)) :
    get_modrinth_mods [] fetchA = .ok ([], 0)
    ∧ get_curseforge_mods_build key [] fetchB = .ok ([], 0, ["Skipping curseforge mods"])
    ∧ get_curseforge_mods_main (some k) [] fetchB = .ok ([], 0)
    ∧ get_curseforge_mods_main none [] fetchB = .error "environment variable not found" := by
  refine ⟨rfl, ?_, rfl, rfl⟩
  unfold get_curseforge_mods_build
  simp

/-- C8: a metadata file whose `update` section holds both the `curseforge`
and the `modrinth` sub-section, or neither, is classified as a skip with the
diagnostic (not an error), contributes nothing to the three collections, and
the scanner continues with the remaining files. -/
theorem ambiguous_update_skipped (f u : TomlVal)
    (hu : f.get "update" = some u)
    (h : ((u.get "curseforge").isSome ∧ (u.get "modrinth").isSome) ∨
         ((u.get "curseforge") = none ∧ (u.get "modrinth") = none)) :
    classifyModFile f
      = .ok (.skip "Unexpected update section without curseforge or modrinth")
    ∧ (∀ st : ScanState,
        (applyScan st (.skip "Unexpected update section without curseforge or modrinth")).mods
          = st.mods
        ∧ (applyScan st
            (.skip "Unexpected update section without curseforge or modrinth")).mr_mods
          = st.mr_mods
        ∧ (applyScan st
            (.skip "Unexpected update section without curseforge or modrinth")).cf_mods
          = st.cf_mods)
    ∧ (∀ (st : ScanState) (fs : List TomlVal),
        scanModFiles (f :: fs) st
          = scanModFiles fs
              (applyScan st
                (.skip "Unexpected update section without curseforge or modrinth"))) := by
  have hcl : classifyModFile f
      = .ok (.skip "Unexpected update section without curseforge or modrinth") := by
    rcases h with ⟨h1, h2⟩ | ⟨h1, h2⟩
    · obtain ⟨cv, hcv⟩ := Option.isSome_iff_exists.mp h1
      obtain ⟨mv, hmv⟩ := Option.isSome_iff_exists.mp h2
      simp only [classifyModFile, hu, hcv, hmv]
    · simp only [classifyModFile, hu, h1, h2]
  exact ⟨hcl, fun st => ⟨rfl, rfl, rfl⟩, fun st fs => by simp only [scanModFiles, hcl]⟩

/-- Witness for C8: a file whose update section holds both sub-sections. -/
theorem ambiguous_update_skipped_witness :
    classifyModFile
      (.table [("update", .table [("curseforge", .table []), ("modrinth", .table [])])])
      = .ok (.skip "Unexpected update section without curseforge or modrinth") :=
  (ambiguous_update_skipped
    (.table [("update", .table [("curseforge", .table []), ("modrinth", .table [])])])
    (.table [("curseforge", .table []), ("modrinth", .table [])])
    rfl (Or.inl ⟨rfl, rfl⟩)).1

/-- C9 counterexample: the identifier types are the opposite of the claim —
registry-A (modrinth) identifiers are strings (an integer `mod-id` is a hard
failure) and registry-B (curseforge) identifiers are integers (a string
`project-id` is a hard failure); a scan of one modrinth and one curseforge
file records the string `"abc"` in the modrinth batch and the integer `5` in
the curseforge batch. -/
theorem scanner_identifier_types_swapped :
    classifyModFile (.table [("update", .table [("modrinth", .table [("mod-id", .int 5)])])])
      = .error "Can't parse mod id as str"
    ∧ classifyModFile
        (.table [("update", .table [("curseforge", .table [("project-id", .str "abc")])])])
      = .error "Can't parse project id as int"
    ∧ scanModFiles
        [.table [("update", .table [("modrinth", .table [("mod-id", .str "abc")])])],
         .table [("update", .table [("curseforge", .table [("project-id", .int 5)])])]]
        ⟨[], [], [], []⟩
      = .ok ⟨[], ["abc"], [5], []⟩ :=
  ⟨rfl, rfl, rfl⟩

/-- C9 amended: the scanner produces three collections — registry-A (modrinth)
identifiers as strings (`mod-id` via `as_str`), registry-B (curseforge)
identifiers as integers (`project-id` via `as_integer`), and self-described
records; a metadata file with no `update` section yields the record built from
its `name`, `side` and `download.url` fields with empty `game_versions` and
`loaders`, appended to the record collection. -/
theorem scanner_contract
    (f fmr fcf : TomlVal) (n s u mid : String) (pid : Int)
    (nv sv dv uv umr mrs mv ucf cfs pv : TomlVal)
    (hupd : f.get "update" = none)
    (hn : f.get "name" = some nv) (hn' : nv.as_str = some n)
    (hs : f.get "side" = some sv) (hs' : sv.as_str = some s)
    (hd : f.get "download" = some dv)
    (hu : dv.get "url" = some uv) (hu' : uv.as_str = some u)
    (hm1 : fmr.get "update" = some umr)
    (hm2 : umr.get "curseforge" = none)
    (hm3 : umr.get "modrinth" = some mrs)
    (hm4 : mrs.get "mod-id" = some mv) (hm5 : mv.as_str = some mid)
    (hc1 : fcf.get "update" = some ucf)
    (hc2 : ucf.get "curseforge" = some cfs)
    (hc3 : ucf.get "modrinth" = none)
    (hc4 : cfs.get "project-id" = some pv) (hc5 : pv.as_integer = some pid) :
    classifyModFile f = .ok (.selfDescribed ⟨n, s, u, [], []⟩)
    ∧ classifyModFile fmr = .ok (.pushModrinth mid)
    ∧ classifyModFile fcf = .ok (.pushCurseforge pid)
    ∧ (∀ (st : ScanState) (fs : List TomlVal),
        scanModFiles (f :: fs) st
          = scanModFiles fs { st with mods := st.mods ++ [⟨n, s, u, [], []⟩] })
    ∧ (∀ (st : ScanState) (fs : List TomlVal),
        scanModFiles (fmr :: fs) st
          = scanModFiles fs { st with mr_mods := st.mr_mods ++ [mid] })
    ∧ (∀ (st : ScanState) (fs : List TomlVal),
        scanModFiles (fcf :: fs) st
          = scanModFiles fs { st with cf_mods := st.cf_mods ++ [pid] }) := by
  have h1 : classifyModFile f = .ok (.selfDescribed ⟨n, s, u, [], []⟩) := by
    simp only [classifyModFile, hupd, hn, hn', hs, hs', hd, hu, hu']
  have h2 : classifyModFile fmr = .ok (.pushModrinth mid) := by
    simp only [classifyModFile, hm1, hm2, hm3, hm4, hm5]
  have h3 : classifyModFile fcf = .ok (.pushCurseforge pid) := by
    simp only [classifyModFile, hc1, hc2, hc3, hc4, hc5]
  refine ⟨h1, h2, h3, fun st fs => ?_, fun st fs => ?_, fun st fs => ?_⟩
  · simp only [scanModFiles, h1, applyScan]
  · simp only [scanModFiles, h2, applyScan]
  · simp only [scanModFiles, h3, applyScan]

/-- Witness for C9 (amended) on concrete metadata files of all three kinds. -/
theorem scanner_contract_witness :
    classifyModFile
      (.table [("name", .str "X"), ("side", .str "both"),
        ("download", .table [("url", .str "https://x")])])
      = .ok (.selfDescribed ⟨"X", "both", "https://x", [], []⟩) :=
  (scanner_contract
    (.table [("name", .str "X"), ("side", .str "both"),
      ("download", .table [("url", .str "https://x")])])
    (.table [("update", .table [("modrinth", .table [("mod-id", .str "abc")])])])
    (.table [("update", .table [("curseforge", .table [("project-id", .int 5)])])])
    "X" "both" "https://x" "abc" 5
    (.str "X") (.str "both") (.table [("url", .str "https://x")]) (.str "https://x")
    (.table [("modrinth", .table [("mod-id", .str "abc")])])
    (.table [("mod-id", .str "abc")]) (.str "abc")
    (.table [("curseforge", .table [("project-id", .int 5)])])
    (.table [("project-id", .int 5)]) (.int 5)
    rfl rfl rfl rfl rfl rfl rfl rfl rfl rfl rfl rfl rfl rfl rfl rfl rfl rfl).1

/-- C10: the comparator never reads the major component — it depends only on
the segments after the first, so two strings with the same minor and patch
but different majors compare equal; `"2.20.1"` and `"1.20.1"` compare `eq`
(observable on the registry-B path, whose game versions reach the sort
without the `1.x` pattern filter). -/
theorem comparator_ignores_major (a a' : String)
    (h : (splitDot a.data).tail = (splitDot a'.data).tail) :
    (∀ b, cmpGameVersions a b = cmpGameVersions a' b
        ∧ cmpGameVersions b a = cmpGameVersions b a')
    ∧ cmpGameVersions "2.20.1" "1.20.1" = some .eq := by
  have hm : versionMinor a = versionMinor a' := by
    unfold versionMinor
    rw [getElem?_one_of_tail_eq h]
  have hp : versionPatch a = versionPatch a' := by
    unfold versionPatch
    rw [getElem?_two_of_tail_eq h]
  exact ⟨fun b => ⟨by simp only [cmpGameVersions, hm, hp], by
    simp only [cmpGameVersions, hm, hp]⟩, rfl⟩

/-- Witness for C10: `"2.20.1"` and `"1.20.1"` share everything past the
major, hence compare identically against `"1.0"` from both sides. -/
theorem comparator_ignores_major_witness :
    cmpGameVersions "2.20.1" "1.0" = cmpGameVersions "1.20.1" "1.0"
    ∧ cmpGameVersions "1.0" "2.20.1" = cmpGameVersions "1.0" "1.20.1" :=
  (comparator_ignores_major "2.20.1" "1.20.1" rfl).1 "1.0"

end Modpack
